import Mathlib

/-!
Verification of the layout-inference pipeline of the Figma deck text
extractor (`src/code.ts`).  Numbers are modelled by `ℚ` (the source works
on JavaScript numbers; all constants appearing in the source are decimal
fractions, written here as exact rationals).  Fallible host calls are
modelled by `Option`.
-/

/-- A text leaf as consumed by the pipeline: raw text, the font size of its
first character as reported by the host (`none` when the host call fails or
the size is mixed/unreadable), and its box size. -/
structure TextLeaf where
  characters : String
  fontSize : Option ℚ
  width : ℚ
  height : ℚ
deriving DecidableEq, Repr

/-- A text node paired with its slide-absolute position, the shape produced
at `code.ts:140-143` (`nodesWithPositions`). -/
structure PosNode where
  node : TextLeaf
  x : ℚ
  y : ℚ
deriving DecidableEq, Repr

/-- `getFontSize` (`code.ts:208-224`): the first character's size when the
text is non-empty and the reported size is a positive number, else 16. -/
def getFontSize (n : TextLeaf) : ℚ :=
  if n.characters.length > 0 then
    match n.fontSize with
    | some s => if s > 0 then s else 16
    | none => 16
  else 16

/-- The four per-slide font-size cut points (`FontThresholds`). -/
structure FontThresholds where
  title : ℚ
  heading : ℚ
  subheading : ℚ
  body : ℚ
deriving DecidableEq, Repr

/-- Descending comparison used by the sorts at `code.ts:243` and 266. -/
def descQ (a b : ℚ) : Prop := b ≤ a

instance : DecidableRel descQ := fun a b => inferInstanceAs (Decidable (b ≤ a))

instance : IsTotal ℚ descQ := ⟨fun a b => le_total b a⟩

instance : IsTrans ℚ descQ := ⟨fun _ _ _ h h' => le_trans h' h⟩

/-- `categorizeFontSizes` (`code.ts:228-305`).  Kept branch-for-branch with
the source: default thresholds on an empty input, fractions of the maximum
when the spread is below 2, then the 4/3/2-distinct-size cases, and finally
the rank-percentile fallback. -/
def categorizeFontSizes (textNodes : List TextLeaf) : FontThresholds :=
  if textNodes = [] then ⟨32, 24, 18, 14⟩ else
  let fontSizes := textNodes.map getFontSize
  let sortedSizes := List.insertionSort descQ fontSizes
  if sortedSizes = [] then ⟨32, 24, 18, 14⟩ else
  let maxSize := sortedSizes.headD 0
  let minSize := sortedSizes.getLastD 0
  let sizeRange := maxSize - minSize
  if sizeRange < 2 then
    ⟨maxSize, maxSize * (3/4), maxSize * (3/5), maxSize * (1/2)⟩
  else
    let p75 := sortedSizes.getD (sortedSizes.length / 4) 0
    let p50 := sortedSizes.getD (sortedSizes.length / 2) 0
    let p25 := sortedSizes.getD (3 * sortedSizes.length / 4) 0
    let uniqueSizes := List.insertionSort descQ sortedSizes.dedup
    if 4 ≤ uniqueSizes.length then
      ⟨uniqueSizes.getD 0 0, uniqueSizes.getD 1 0, uniqueSizes.getD 2 0, uniqueSizes.getD 3 0⟩
    else if uniqueSizes.length = 3 then
      ⟨uniqueSizes.getD 0 0, uniqueSizes.getD 1 0, uniqueSizes.getD 2 0,
        uniqueSizes.getD 2 0 * (4/5)⟩
    else if uniqueSizes.length = 2 then
      ⟨uniqueSizes.getD 0 0, uniqueSizes.getD 1 0, uniqueSizes.getD 1 0 * (17/20),
        uniqueSizes.getD 1 0 * (7/10)⟩
    else
      ⟨p75, p50, p25, minSize⟩

/-- The four semantic levels. -/
inductive Level where
  | title
  | heading
  | subheading
  | body
deriving DecidableEq, Repr

/-- Numeric rank of a level, `body` lowest. -/
def levelRank : Level → ℕ
  | .body => 0
  | .subheading => 1
  | .heading => 2
  | .title => 3

/-- `getMarkdownLevel` (`code.ts:309-325`): classify a size against the
midpoints of adjacent thresholds. -/
def getMarkdownLevel (fontSize : ℚ) (t : FontThresholds) : Level :=
  let titleMidpoint := (t.title + t.heading) / 2
  let headingMidpoint := (t.heading + t.subheading) / 2
  let subheadingMidpoint := (t.subheading + t.body) / 2
  if fontSize ≥ titleMidpoint then .title
  else if fontSize ≥ headingMidpoint then .heading
  else if fontSize ≥ subheadingMidpoint then .subheading
  else .body

/-- `formatMarkdown` (`code.ts:328-339`). -/
def formatMarkdown (text : String) : Level → String
  | .title => "# " ++ text
  | .heading => "## " ++ text
  | .subheading => "### " ++ text
  | .body => text

/-- The rank-percentile computation of `code.ts:298-304` in isolation, over
an already descending-sorted size list: 75th/50th/25th percentile indices
and the minimum.  Used to compare against the branch `categorizeFontSizes`
actually takes. -/
def percentileThresholds (sortedSizes : List ℚ) : FontThresholds :=
  ⟨sortedSizes.getD (sortedSizes.length / 4) 0,
   sortedSizes.getD (sortedSizes.length / 2) 0,
   sortedSizes.getD (3 * sortedSizes.length / 4) 0,
   sortedSizes.getLastD 0⟩

/-! ### Column Segmenter (`code.ts:138-204`) -/

/-- JS `Math.round`: round half toward positive infinity. -/
def jsRound (q : ℚ) : ℤ := ⌊q + 1/2⌋

/-- One detected column of a `ColumnLayout`. -/
structure ColumnSpec where
  x : ℚ
  width : ℚ
  contentDensity : ℚ
deriving DecidableEq, Repr

/-- Analysis-supplied column layout. -/
structure ColumnLayout where
  columnCount : ℕ
  columns : List ColumnSpec
  whitespaceRegions : List (ℚ × ℚ)
deriving DecidableEq, Repr

/-- The kind tag of a `ContentRegion`. -/
inductive RegionKind where
  | text
  | image
deriving DecidableEq, Repr

/-- A region reported by the visual analysis, in analysis-space pixels. -/
structure ContentRegion where
  x : ℚ
  y : ℚ
  width : ℚ
  height : ℚ
  kind : RegionKind
  confidence : ℚ
deriving DecidableEq, Repr

/-- The optional per-slide visual analysis result. -/
structure SlideAnalysis where
  regions : List ContentRegion
  layout : ColumnLayout
deriving DecidableEq, Repr

/-- Ascending comparison used by the boundary sort at `code.ts:165`. -/
def ascQ (a b : ℚ) : Prop := a ≤ b

instance : DecidableRel ascQ := fun a b => inferInstanceAs (Decidable (a ≤ b))

instance : IsTotal ℚ ascQ := ⟨fun a b => le_total a b⟩

instance : IsTrans ℚ ascQ := ⟨fun _ _ _ h h' => le_trans h h'⟩

/-- Comparison by `y` used by the per-column sorts at `code.ts:189`
(`(a, b) => a.y - b.y` under a stable sort). -/
def yLE (a b : PosNode) : Prop := a.y ≤ b.y

instance : DecidableRel yLE := fun a b => inferInstanceAs (Decidable (a.y ≤ b.y))

instance : IsTotal PosNode yLE := ⟨fun a b => le_total a.y b.y⟩

instance : IsTrans PosNode yLE := ⟨fun _ _ _ h h' => le_trans h h'⟩

/-- Column boundaries (`code.ts:145-169`): scaled analysis columns plus the
implicit `0` and `slideWidth` boundaries, sorted ascending; or the default
two-band split at 40% of the slide width. -/
def columnBoundaries (slideWidth : ℚ) (analysis : Option SlideAnalysis) : List ℚ :=
  match analysis with
  | some a =>
    if 0 < a.layout.columns.length then
      let analysisScale := min 1 (400 / slideWidth)
      let analysisWidth : ℚ := (jsRound (slideWidth * analysisScale) : ℤ)
      List.insertionSort ascQ
        (0 :: (a.layout.columns.map (fun col => col.x / analysisWidth * slideWidth) ++
          [slideWidth]))
    else [0, slideWidth * (2/5), slideWidth]
  | none => [0, slideWidth * (2/5), slideWidth]

/-- The inner scan of `code.ts:179-184`: the first index `i` (counting from
`start`) with `bs[i] ≤ x < bs[i+1]`, or `none` when no interval matches. -/
def findColumnFrom (x : ℚ) : List ℚ → ℕ → Option ℕ
  | b0 :: b1 :: rest, i =>
    if b0 ≤ x ∧ x < b1 then some i else findColumnFrom x (b1 :: rest) (i + 1)
  | _, _ => none

/-- The column an element with absolute x-coordinate `x` is pushed to by the
loop at `code.ts:177-185`, if any. -/
def findColumn (bs : List ℚ) (x : ℚ) : Option ℕ := findColumnFrom x bs 0

/-- The per-column buckets built by `code.ts:171-185`: `bs.length - 1`
columns, column `i` holding, in input order, the items whose first matching
half-open boundary interval is `[bs[i], bs[i+1])`. -/
def assignColumns (items : List PosNode) (bs : List ℚ) : List (List PosNode) :=
  (List.range (bs.length - 1)).map
    (fun i => items.filter (fun it => findColumn bs it.x = some i))

/-- `sortTextNodesByColumns` (`code.ts:138-204`), starting from the
node/position pairs: bucket by column, sort each column by `y` (stable),
and concatenate the columns in order. -/
def sortTextNodesByColumns (items : List PosNode) (slideWidth : ℚ)
    (analysis : Option SlideAnalysis) : List PosNode :=
  ((assignColumns items (columnBoundaries slideWidth analysis)).map
    (List.insertionSort yLE)).flatten

/-! ### Tree Walker and Position Resolver (`code.ts:47-70`, 122-135) -/

/-- A node of the slide's element tree: a text leaf or a container with
children.  Only the attributes the pipeline reads are modelled. -/
inductive SceneNode where
  | text (visible locked : Bool) (x y width height : ℚ)
      (characters : String) (fontSize : Option ℚ)
  | frame (visible locked : Bool) (x y width height : ℚ)
      (children : List SceneNode)
deriving Repr

/-- The `width` attribute of a node. -/
def SceneNode.width : SceneNode → ℚ
  | .text _ _ _ _ w _ _ _ => w
  | .frame _ _ _ _ w _ _ => w

/-- The `height` attribute of a node. -/
def SceneNode.height : SceneNode → ℚ
  | .text _ _ _ _ _ h _ _ => h
  | .frame _ _ _ _ _ h _ => h

/-- `findAllTextNodes` (`code.ts:47-70`): skip any hidden node, skip any
locked node, collect text leaves, recurse into children. -/
def findAllTextNodes : SceneNode → List TextLeaf
  | .text v l _ _ w h ch fs =>
    if v = false then [] else if l = true then [] else [⟨ch, fs, w, h⟩]
  | .frame v l _ _ _ _ children =>
    if v = false then [] else if l = true then [] else
      (children.attach.map (fun c => findAllTextNodes c.1)).flatten
termination_by t => sizeOf t
decreasing_by
  simp_wf
  have := List.sizeOf_lt_of_mem c.2
  omega

/-- The walk of `findAllTextNodes` fused with `getAbsolutePosition`
(`code.ts:122-135`): each collected leaf is paired with its position offset
by the accumulated ancestor offsets `(ox, oy)`. -/
def absLeaves (ox oy : ℚ) : SceneNode → List PosNode
  | .text v l x y w h ch fs =>
    if v = false then [] else if l = true then [] else [⟨⟨ch, fs, w, h⟩, ox + x, oy + y⟩]
  | .frame v l x y _ _ children =>
    if v = false then [] else if l = true then [] else
      (children.attach.map (fun c => absLeaves (ox + x) (oy + y) c.1)).flatten
termination_by t => sizeOf t
decreasing_by
  simp_wf
  have := List.sizeOf_lt_of_mem c.2
  omega

/-- `nodesWithPositions` (`code.ts:140-143`) for a whole slide:
`findAllTextNodes` on the slide, each leaf paired with
`getAbsolutePosition(leaf, slide)`.  The slide's own offset is excluded
because `getAbsolutePosition` stops at the slide; a slide that is itself a
text node reports its own local position (the parent loop exits at once on
a null parent). -/
def nodesWithPositions : SceneNode → List PosNode
  | .text v l x y w h ch fs =>
    if v = false then [] else if l = true then [] else [⟨⟨ch, fs, w, h⟩, x, y⟩]
  | .frame v l _ _ _ _ children =>
    if v = false then [] else if l = true then [] else
      (children.attach.map (fun c => absLeaves 0 0 c.1)).flatten

/-- The Tree Walker contract as the claim amends it: a leaf is collected
exactly when every node on the root-to-leaf path is not hidden and not
locked. -/
def visibleUnlockedLeaves : SceneNode → List TextLeaf
  | .text v l _ _ w h ch fs =>
    if v ≠ false ∧ l ≠ true then [⟨ch, fs, w, h⟩] else []
  | .frame v l _ _ _ _ children =>
    if v ≠ false ∧ l ≠ true then
      (children.attach.map (fun c => visibleUnlockedLeaves c.1)).flatten
    else []
termination_by t => sizeOf t
decreasing_by
  simp_wf
  have := List.sizeOf_lt_of_mem c.2
  omega

/-! ### Visual-Region Filter and per-slide extraction (`code.ts:342-433`) -/

/-- `isPointInImageRegion` (`code.ts:342-361`): scale the slide-space point
into analysis space and test it against every image region's box. -/
def isPointInImageRegion (x y : ℚ) (imageRegions : List ContentRegion)
    (slideWidth slideHeight analysisWidth analysisHeight : ℚ) : Bool :=
  let scaleX := analysisWidth / slideWidth
  let scaleY := analysisHeight / slideHeight
  let scaledX := x * scaleX
  let scaledY := y * scaleY
  imageRegions.any (fun region => decide (region.kind = RegionKind.image ∧
    region.x ≤ scaledX ∧ scaledX ≤ region.x + region.width ∧
    region.y ≤ scaledY ∧ scaledY ≤ region.y + region.height))

/-- A formatted text item (`TextItem`). -/
structure TextItem where
  text : String
  markdown : String
  level : Level
deriving DecidableEq, Repr

/-- The pair of parallel outputs of `extractSlideText`. -/
structure ExtractResult where
  plainText : List String
  formattedText : List TextItem
deriving DecidableEq, Repr

/-- `extractSlideText` (`code.ts:364-433`): walk, optionally filter by image
regions, order by columns, classify font sizes, and emit the parallel
plain/formatted sequences. -/
def extractSlideText (slide : SceneNode) (analysis : Option SlideAnalysis) : ExtractResult :=
  let textNodes := nodesWithPositions slide
  let slideWidth := slide.width
  let slideHeight := slide.height
  let filteredNodes :=
    match analysis with
    | some a =>
      let imageRegions := a.regions.filter (fun r => decide (r.kind = RegionKind.image))
      if 0 < imageRegions.length then
        let analysisScale := min 1 (400 / slideWidth)
        let analysisWidth : ℚ := (jsRound (slideWidth * analysisScale) : ℤ)
        let analysisHeight : ℚ := (jsRound (slideHeight * analysisScale) : ℤ)
        textNodes.filter (fun node =>
          ! isPointInImageRegion (node.x + node.node.width / 2)
              (node.y + node.node.height / 2)
              imageRegions slideWidth slideHeight analysisWidth analysisHeight)
      else textNodes
    | none => textNodes
  let sortedNodes := sortTextNodesByColumns filteredNodes slideWidth analysis
  let thresholds := categorizeFontSizes (sortedNodes.map PosNode.node)
  let formattedItems := sortedNodes.map (fun node =>
    let text := node.node.characters
    let fontSize := getFontSize node.node
    let level := getMarkdownLevel fontSize thresholds
    TextItem.mk text (formatMarkdown text level) level)
  let plainText := sortedNodes.map (fun node => node.node.characters)
  ⟨plainText, formattedItems⟩

/-! ### Batch Scheduler finalisation (`code.ts:492-562`) -/

/-- One per-slide output record (`SlideData`). -/
structure SlideData where
  sectionNumber : ℤ
  slideNumber : ℤ
  overallSlideNumber : ℕ
  textContent : List String
  formattedContent : List TextItem
deriving DecidableEq, Repr

/-- The `(sectionNumber, slideNumber)` lexicographic order implemented by
the comparator at `code.ts:540-545`. -/
def slideOrder (a b : SlideData) : Prop :=
  a.sectionNumber < b.sectionNumber ∨
    (a.sectionNumber = b.sectionNumber ∧ a.slideNumber ≤ b.slideNumber)

instance : DecidableRel slideOrder := fun a b =>
  inferInstanceAs (Decidable (a.sectionNumber < b.sectionNumber ∨
    (a.sectionNumber = b.sectionNumber ∧ a.slideNumber ≤ b.slideNumber)))

instance : IsTotal SlideData slideOrder := by
  constructor
  intro a b
  unfold slideOrder
  rcases lt_trichotomy a.sectionNumber b.sectionNumber with h | h | h
  · exact Or.inl (Or.inl h)
  · rcases le_total a.slideNumber b.slideNumber with h' | h'
    · exact Or.inl (Or.inr ⟨h, h'⟩)
    · exact Or.inr (Or.inr ⟨h.symm, h'⟩)
  · exact Or.inr (Or.inl h)

instance : IsTrans SlideData slideOrder := by
  constructor
  intro a b c hab hbc
  unfold slideOrder at *
  rcases hab with h | ⟨h, h'⟩ <;> rcases hbc with g | ⟨g, g'⟩
  · exact Or.inl (lt_trans h g)
  · exact Or.inl (g ▸ h)
  · exact Or.inl (h ▸ g)
  · exact Or.inr ⟨h.trans g, h'.trans g'⟩

/-- The finalisation step at `code.ts:540-552`: stable-sort the collected
records by `(sectionNumber, slideNumber)` and assign the dense 1-based
`overallSlideNumber`. -/
def finalizeSlides (slidesData : List SlideData) : List SlideData :=
  let sorted := List.insertionSort slideOrder slidesData
  sorted.enum.map (fun p => { p.2 with overallSlideNumber := p.1 + 1 })

/-- An entry of the slide worklist (`slideItems`). -/
structure SlideItem where
  node : SceneNode
  sectionNumber : ℤ
  slideNumber : ℤ

/-- The record pushed for one slide item at `code.ts:516-525`, or `none`
when text extraction throws (the `catch` at `code.ts:526-528`). -/
def recordOfItem (extract : SlideItem → Option ExtractResult) (item : SlideItem) :
    Option SlideData :=
  (extract item).map (fun r =>
    ⟨item.sectionNumber, item.slideNumber, 0, r.plainText, r.formattedText⟩)

/-- The batched collection loop of `processSlidesInBatches`
(`code.ts:501-537`): process five items per increment, appending a record
for each item whose extraction succeeds, then continue with the rest. -/
def processBatches (extract : SlideItem → Option ExtractResult) :
    List SlideItem → List SlideData → List SlideData
  | [], acc => acc
  | item :: rest, acc =>
    processBatches extract ((item :: rest).drop 5)
      (acc ++ (((item :: rest).take 5).filterMap (recordOfItem extract)))
termination_by items => items.length
decreasing_by
  simp [List.length_drop]
  omega

/-- `processSlidesInBatches` (`code.ts:492-562`) end to end: batched
collection followed by the sort-and-number finalisation. -/
def processSlidesInBatches (extract : SlideItem → Option ExtractResult)
    (slideItems : List SlideItem) : List SlideData :=
  finalizeSlides (processBatches extract slideItems [])

/-! ### Position Resolver ancestor loop (`code.ts:122-135`) -/

/-- A document's parent structure for `getAbsolutePosition`: nodes are
indices with a local offset and an optional parent.  Unlike a tree, this
can represent the malformed and cyclic parent chains the claim quantifies
over. -/
structure ParentChain where
  xOf : ℕ → ℚ
  yOf : ℕ → ℚ
  parent : ℕ → Option ℕ

/-- The loop state of `getAbsolutePosition`: accumulated `x`, `y` and the
`current` cursor. -/
structure GapState where
  x : ℚ
  y : ℚ
  current : Option ℕ

/-- The state before the first loop iteration (`code.ts:123-125`). -/
def gapInit (e : ParentChain) (node : ℕ) : GapState :=
  ⟨e.xOf node, e.yOf node, e.parent node⟩

/-- One iteration of the `while` loop at `code.ts:128-132`: if the cursor
is null or the slide the state is unchanged, otherwise add the current
ancestor's offset and move to its parent. -/
def gapStep (e : ParentChain) (slide : ℕ) (s : GapState) : GapState :=
  match s.current with
  | none => s
  | some c => if c = slide then s else ⟨s.x + e.xOf c, s.y + e.yOf c, e.parent c⟩

/-- `n` iterations of the loop. -/
def gapRun (e : ParentChain) (slide : ℕ) : ℕ → GapState → GapState
  | 0, s => s
  | n + 1, s => gapRun e slide n (gapStep e slide s)

/-- The loop guard has failed: the cursor is null or the slide. -/
def gapHalted (slide : ℕ) (s : GapState) : Bool :=
  match s.current with
  | none => true
  | some c => c = slide

/-- `getAbsolutePosition` terminates: some number of iterations reaches a
halted state. -/
def gapTerminates (e : ParentChain) (slide node : ℕ) : Prop :=
  ∃ n, gapHalted slide (gapRun e slide n (gapInit e node))

/-- The ancestors whose offsets the loop adds within `n` iterations,
starting from cursor `cur`: the parent chain up to but excluding the slide
or a null parent. -/
def visitedAncestors (e : ParentChain) (slide : ℕ) : ℕ → Option ℕ → List ℕ
  | 0, _ => []
  | _ + 1, none => []
  | n + 1, some c =>
    if c = slide then [] else c :: visitedAncestors e slide n (e.parent c)

/-- A two-node parent cycle (`0 ↔ 1`) with the slide at index 2, off the
chain. -/
def cyclicChain : ParentChain :=
  ⟨fun _ => 1, fun _ => 1,
   fun n => if n = 0 then some 1 else if n = 1 then some 0 else none⟩

/-- A well-formed two-step chain `0 → 1 → 2` with the slide at index 2. -/
def straightChain : ParentChain :=
  ⟨fun n => (n : ℚ), fun n => (n : ℚ) + 1,
   fun n => if n = 0 then some 1 else if n = 1 then some 2 else none⟩

/-- A sample leaf with text and font size 10, for concrete instantiations. -/
def leafTen : TextLeaf := ⟨"a", some 10, 5, 5⟩

/-- A default `PosNode` used only as the out-of-range value of `List.getD`. -/
def defaultPosNode : PosNode := ⟨⟨"", none, 0, 0⟩, 0, 0⟩

/-- A sample positioned node in the left 40% band (x = 5), low on the slide
(y = 50). -/
def nodeL : PosNode := ⟨⟨"l", some 10, 1, 1⟩, 5, 50⟩

/-- A sample positioned node in the right band (x = 60), high on the slide
(y = 10). -/
def nodeR : PosNode := ⟨⟨"r", some 10, 1, 1⟩, 60, 10⟩

/-- A sample extraction stub that fails exactly on slide number 2. -/
def extractStub : SlideItem → Option ExtractResult :=
  fun it => if it.slideNumber = 2 then none else some ⟨["x"], []⟩

/-- Sample slide item with slide number 1. -/
def itemOne : SlideItem := ⟨.frame true false 0 0 1 1 [], 1, 1⟩

/-- Sample slide item with slide number 2 (the failing one for
`extractStub`). -/
def itemTwo : SlideItem := ⟨.frame true false 0 0 1 1 [], 1, 2⟩

/-- Sample slide item with slide number 3. -/
def itemThree : SlideItem := ⟨.frame true false 0 0 1 1 [], 1, 3⟩

/-! ### List access helpers -/

theorem headD_eq_getD_zero (l : List ℚ) : l.headD 0 = l.getD 0 0 := by
  cases l <;> rfl

theorem getD_mem_of_lt (l : List ℚ) {i : ℕ} (h : i < l.length) : l.getD i 0 ∈ l := by
  rw [List.getD_eq_getElem?_getD, List.getElem?_eq_getElem h]
  exact List.getElem_mem h

theorem getLastD_eq_getD (l : List ℚ) (h : l ≠ []) :
    l.getLastD 0 = l.getD (l.length - 1) 0 := by
  have hlen : 0 < l.length := List.length_pos.mpr h
  rw [List.getLastD_eq_getLast? , List.getLast?_eq_getLast l h,
    List.getLast_eq_getElem l h, List.getD_eq_getElem?_getD,
    List.getElem?_eq_getElem (by omega : l.length - 1 < l.length)]

theorem sorted_getD_antitone {l : List ℚ} (hs : l.Sorted descQ) {i j : ℕ}
    (hij : i ≤ j) (hj : j < l.length) : l.getD j 0 ≤ l.getD i 0 := by
  have hi : i < l.length := lt_of_le_of_lt hij hj
  rw [List.getD_eq_getElem?_getD, List.getElem?_eq_getElem hj,
    List.getD_eq_getElem?_getD, List.getElem?_eq_getElem hi]
  rcases Nat.eq_or_lt_of_le hij with rfl | hlt
  · exact le_refl _
  · exact hs.rel_get_of_lt (show (⟨i, hi⟩ : Fin l.length) < ⟨j, hj⟩ from hlt)

/-! ### Claim C4: thresholds are non-increasing on every branch -/

/-- C4: for every list of text nodes (every branch of `categorizeFontSizes`:
empty default, small spread, 4/3/2 distinct sizes, percentile fallback),
the returned thresholds satisfy `title ≥ heading ≥ subheading ≥ body`,
assuming every node's representative font size is positive. -/
theorem categorizeFontSizes_thresholds_nonincreasing (nodes : List TextLeaf)
    (hpos : ∀ n ∈ nodes, 0 < getFontSize n) :
    (categorizeFontSizes nodes).body ≤ (categorizeFontSizes nodes).subheading ∧
    (categorizeFontSizes nodes).subheading ≤ (categorizeFontSizes nodes).heading ∧
    (categorizeFontSizes nodes).heading ≤ (categorizeFontSizes nodes).title := by
  by_cases h0 : nodes = []
  · subst h0; unfold categorizeFontSizes; norm_num
  · have hssmem : ∀ x ∈ List.insertionSort descQ (nodes.map getFontSize), 0 < x := by
      intro x hx
      obtain ⟨n, hn, rfl⟩ := List.mem_map.1 ((List.mem_insertionSort descQ).1 hx)
      exact hpos n hn
    have hlen : (List.insertionSort descQ (nodes.map getFontSize)).length = nodes.length := by
      rw [List.length_insertionSort, List.length_map]
    have hne : List.insertionSort descQ (nodes.map getFontSize) ≠ [] := by
      intro h
      apply h0
      rw [← List.length_eq_zero, ← hlen, h, List.length_nil]
    have hpos0 : 0 < (List.insertionSort descQ (nodes.map getFontSize)).length :=
      List.length_pos.mpr hne
    have hsorted : (List.insertionSort descQ (nodes.map getFontSize)).Sorted descQ :=
      List.sorted_insertionSort descQ _
    have husort : (List.insertionSort descQ
        (List.insertionSort descQ (nodes.map getFontSize)).dedup).Sorted descQ :=
      List.sorted_insertionSort descQ _
    have humem : ∀ x ∈ List.insertionSort descQ
        (List.insertionSort descQ (nodes.map getFontSize)).dedup, 0 < x := by
      intro x hx
      exact hssmem x (List.mem_dedup.1 ((List.mem_insertionSort descQ).1 hx))
    unfold categorizeFontSizes
    simp only [h0, if_false, ite_false]
    split_ifs with hnil hrange h4 h3 h2
    · exact absurd hnil hne
    · have hm : 0 < (List.insertionSort descQ (nodes.map getFontSize)).headD 0 := by
        rw [headD_eq_getD_zero]
        exact hssmem _ (getD_mem_of_lt _ hpos0)
      refine ⟨?_, ?_, ?_⟩ <;> dsimp only <;> linarith
    · refine ⟨?_, ?_, ?_⟩ <;> dsimp only
      · exact sorted_getD_antitone husort (by omega) (by omega)
      · exact sorted_getD_antitone husort (by omega) (by omega)
      · exact sorted_getD_antitone husort (by omega) (by omega)
    · have hu2 : 0 < (List.insertionSort descQ
          (List.insertionSort descQ (nodes.map getFontSize)).dedup).getD 2 0 :=
        humem _ (getD_mem_of_lt _ (by omega))
      refine ⟨?_, ?_, ?_⟩ <;> dsimp only
      · linarith
      · exact sorted_getD_antitone husort (by omega) (by omega)
      · exact sorted_getD_antitone husort (by omega) (by omega)
    · have hu1 : 0 < (List.insertionSort descQ
          (List.insertionSort descQ (nodes.map getFontSize)).dedup).getD 1 0 :=
        humem _ (getD_mem_of_lt _ (by omega))
      refine ⟨?_, ?_, ?_⟩ <;> dsimp only
      · linarith
      · linarith
      · exact sorted_getD_antitone husort (by omega) (by omega)
    · refine ⟨?_, ?_, ?_⟩ <;> dsimp only
      · rw [getLastD_eq_getD _ hne]
        exact sorted_getD_antitone hsorted (by omega) (by omega)
      · exact sorted_getD_antitone hsorted (by omega) (by omega)
      · exact sorted_getD_antitone hsorted (by omega) (by omega)

/-- Witness for C4 at the one-node slide `[leafTen]`. -/
theorem categorizeFontSizes_thresholds_nonincreasing_witness :
    (∀ n ∈ [leafTen], 0 < getFontSize n) ∧
    ((categorizeFontSizes [leafTen]).body ≤ (categorizeFontSizes [leafTen]).subheading ∧
     (categorizeFontSizes [leafTen]).subheading ≤ (categorizeFontSizes [leafTen]).heading ∧
     (categorizeFontSizes [leafTen]).heading ≤ (categorizeFontSizes [leafTen]).title) :=
  ⟨by decide, categorizeFontSizes_thresholds_nonincreasing [leafTen] (by decide)⟩

/-! ### Claim C5: classification is monotone in the font size -/

/-- C5: for thresholds with `title ≥ heading ≥ subheading ≥ body` and sizes
`s1 ≤ s2`, the level of `s2` is at least the level of `s1` in the order
`body < subheading < heading < title` (cut lines are the midpoints of
adjacent thresholds, compared with `≥`). -/
theorem getMarkdownLevel_monotone (t : FontThresholds)
    (ht : t.body ≤ t.subheading ∧ t.subheading ≤ t.heading ∧ t.heading ≤ t.title)
    (s1 s2 : ℚ) (hs : s1 ≤ s2) :
    levelRank (getMarkdownLevel s1 t) ≤ levelRank (getMarkdownLevel s2 t) := by
  unfold getMarkdownLevel
  dsimp only
  split_ifs <;> simp [levelRank] <;> linarith

/-- Witness for C5 at the default thresholds and sizes 10 ≤ 20. -/
theorem getMarkdownLevel_monotone_witness :
    ((14:ℚ) ≤ 18 ∧ (18:ℚ) ≤ 24 ∧ (24:ℚ) ≤ 32) ∧ (10:ℚ) ≤ 20 ∧
    levelRank (getMarkdownLevel 10 ⟨32, 24, 18, 14⟩) ≤
      levelRank (getMarkdownLevel 20 ⟨32, 24, 18, 14⟩) :=
  ⟨by decide, by decide,
    getMarkdownLevel_monotone ⟨32, 24, 18, 14⟩ (by decide) 10 20 (by decide)⟩

/-! ### Claim C6: one distinct size takes the small-spread branch, not the
percentile path -/

unseal Rat.add Rat.sub Rat.mul Rat.inv in
/-- C6 counterexample: on a slide whose single text node has size 10, the
claim says `categorizeFontSizes` follows the rank-percentile path over the
degenerate sorted list, which would give all four thresholds equal to 10;
the code instead returns the fractions-of-max thresholds `⟨10, 7.5, 6, 5⟩`
from the small-spread branch. -/
theorem categorizeFontSizes_single_size_counterexample :
    percentileThresholds (List.insertionSort descQ ([leafTen].map getFontSize)) =
      ⟨10, 10, 10, 10⟩ ∧
    categorizeFontSizes [leafTen] = ⟨10, 10 * (3/4), 10 * (3/5), 10 * (1/2)⟩ ∧
    categorizeFontSizes [leafTen] ≠
      percentileThresholds (List.insertionSort descQ ([leafTen].map getFontSize)) := by
  refine ⟨by decide, by decide, by decide⟩

/-- C6 amended: for a non-empty slide whose nodes all share one distinct
representative size `s`, the spread `max - min = 0 < 2`, so the
small-spread branch returns fractions of the maximum
(`title = s`, `heading = 0.75·s`, `subheading = 0.6·s`, `body = 0.5·s`);
the percentile path is unreachable for such inputs. -/
theorem categorizeFontSizes_single_size (nodes : List TextLeaf) (s : ℚ)
    (hne : nodes ≠ []) (hall : ∀ n ∈ nodes, getFontSize n = s) :
    categorizeFontSizes nodes = ⟨s, s * (3/4), s * (3/5), s * (1/2)⟩ := by
  have hssall : ∀ x ∈ List.insertionSort descQ (nodes.map getFontSize), x = s := by
    intro x hx
    obtain ⟨n, hn, rfl⟩ := List.mem_map.1 ((List.mem_insertionSort descQ).1 hx)
    exact hall n hn
  have hlen : (List.insertionSort descQ (nodes.map getFontSize)).length = nodes.length := by
    rw [List.length_insertionSort, List.length_map]
  have hnesort : List.insertionSort descQ (nodes.map getFontSize) ≠ [] := by
    intro h
    apply hne
    rw [← List.length_eq_zero, ← hlen, h, List.length_nil]
  have hpos0 : 0 < (List.insertionSort descQ (nodes.map getFontSize)).length :=
    List.length_pos.mpr hnesort
  have hhead : (List.insertionSort descQ (nodes.map getFontSize)).headD 0 = s := by
    rw [headD_eq_getD_zero]
    exact hssall _ (getD_mem_of_lt _ hpos0)
  have hlast : (List.insertionSort descQ (nodes.map getFontSize)).getLastD 0 = s := by
    rw [getLastD_eq_getD _ hnesort]
    exact hssall _ (getD_mem_of_lt _ (by omega))
  unfold categorizeFontSizes
  simp only [hne, if_false, ite_false, hhead, hlast]
  rw [if_neg hnesort, if_pos (by norm_num : (s - s : ℚ) < 2)]

/-- Witness for C6's amended claim at the one-node slide `[leafTen]`. -/
theorem categorizeFontSizes_single_size_witness :
    ([leafTen] ≠ [] ∧ ∀ n ∈ [leafTen], getFontSize n = 10) ∧
    categorizeFontSizes [leafTen] = ⟨10, 10 * (3/4), 10 * (3/5), 10 * (1/2)⟩ :=
  ⟨⟨by decide, by decide⟩, categorizeFontSizes_single_size [leafTen] 10 (by decide) (by decide)⟩

/-! ### Claim C3: effect of locked ancestors on the Tree Walker -/

/-- C3 counterexample: the claim says a `locked === true` ancestor makes no
difference to whether a qualifying text leaf is collected.  It does: the
same visible, unlocked text leaf is collected under an unlocked frame but
not under a locked one, because `findAllTextNodes` returns early on any
locked node. -/
theorem findAllTextNodes_locked_ancestor_counterexample :
    findAllTextNodes
      (.frame true true 0 0 100 100 [.text true false 1 2 10 10 "t" (some 12)]) = [] ∧
    findAllTextNodes
      (.frame true false 0 0 100 100 [.text true false 1 2 10 10 "t" (some 12)]) =
      [⟨"t", some 12, 10, 10⟩] := by
  constructor <;> simp [findAllTextNodes]

/-- C3 amended: `findAllTextNodes` returns exactly those text leaves all of
whose ancestors from root to leaf, the leaf included, satisfy
`visible ≠ false` and `locked ≠ true` — a locked node prunes its whole
subtree, so lock state matters on every node of the path, not only at the
leaf. -/
theorem findAllTextNodes_eq_visibleUnlockedLeaves : ∀ (t : SceneNode),
    findAllTextNodes t = visibleUnlockedLeaves t
  | .text v l x y w h ch fs => by
    cases v <;> cases l <;> simp [findAllTextNodes, visibleUnlockedLeaves]
  | .frame v l x y w h children => by
    have ih : ∀ c ∈ children.attach, findAllTextNodes c.1 = visibleUnlockedLeaves c.1 :=
      fun c _ => findAllTextNodes_eq_visibleUnlockedLeaves c.1
    cases v <;> cases l <;>
      simp [findAllTextNodes, visibleUnlockedLeaves, List.map_congr_left ih]
termination_by t => sizeOf t
decreasing_by
  simp_wf
  have := List.sizeOf_lt_of_mem c.2
  omega

/-! ### Claim C7: dense 1-based overall numbering after the final sort -/

/-- C7: over any list of collected records, the finalisation step sorts by
`(sectionNumber, slideNumber)` and the resulting `overallSlideNumber`
values are exactly `1..N`; along the output (which is in
`(sectionNumber, slideNumber)` order) the numbers are strictly
increasing. -/
theorem finalizeSlides_numbering (records : List SlideData) :
    (finalizeSlides records).map SlideData.overallSlideNumber =
      List.range' 1 records.length ∧
    (finalizeSlides records).Pairwise (fun a b => slideOrder a b ∧
      a.overallSlideNumber < b.overallSlideNumber) := by
  constructor
  · unfold finalizeSlides
    rw [List.map_map]
    have : (SlideData.overallSlideNumber ∘ fun p : ℕ × SlideData =>
        { p.2 with overallSlideNumber := p.1 + 1 }) = (fun n => n + 1) ∘ Prod.fst := rfl
    rw [this, ← List.map_map, List.enum_map_fst, List.length_insertionSort,
      List.range'_eq_map_range]
    exact List.map_congr_left (fun a _ => by omega)
  · unfold finalizeSlides
    apply List.Pairwise.map
      (R := fun p q : ℕ × SlideData => slideOrder p.2 q.2 ∧ p.1 < q.1)
    · intro a b hab
      exact ⟨hab.1, Nat.add_lt_add_right hab.2 1⟩
    · rw [List.pairwise_iff_get]
      intro i j hij
      have hsorted : (List.insertionSort slideOrder records).Pairwise slideOrder :=
        List.sorted_insertionSort slideOrder records
      rw [List.pairwise_iff_get] at hsorted
      have hil : (i : ℕ) < (List.insertionSort slideOrder records).length := by
        have := i.2; simpa [List.enum_length] using this
      have hjl : (j : ℕ) < (List.insertionSort slideOrder records).length := by
        have := j.2; simpa [List.enum_length] using this
      have hgi : (List.insertionSort slideOrder records).enum.get i =
          ((i : ℕ), (List.insertionSort slideOrder records).get ⟨i, hil⟩) := by
        simp [List.get_eq_getElem, List.getElem_enum]
      have hgj : (List.insertionSort slideOrder records).enum.get j =
          ((j : ℕ), (List.insertionSort slideOrder records).get ⟨j, hjl⟩) := by
        simp [List.get_eq_getElem, List.getElem_enum]
      rw [hgi, hgj]
      exact ⟨hsorted ⟨i, hil⟩ ⟨j, hjl⟩ hij, hij⟩

/-! ### Claim C8: a per-slide failure is omitted, the run continues -/

/-- The batched collection loop appends exactly one record per item whose
extraction succeeds, in order. -/
theorem processBatches_eq_filterMap (extract : SlideItem → Option ExtractResult) :
    ∀ (items : List SlideItem) (acc : List SlideData),
    processBatches extract items acc = acc ++ items.filterMap (recordOfItem extract)
  | [], acc => by simp [processBatches]
  | item :: rest, acc => by
    rw [processBatches, processBatches_eq_filterMap extract ((item :: rest).drop 5),
      List.append_assoc, ← List.filterMap_append, List.take_append_drop]
termination_by items => items.length
decreasing_by
  simp [List.length_drop]
  omega

/-- C8: when extraction throws on one slide item (`extract bad = none`),
the batched run still collects a record for every other item, in order, and
the finalised output equals that of the run without the failing item — the
failure never aborts the run. -/
theorem processSlides_failure_omitted (extract : SlideItem → Option ExtractResult)
    (pre post : List SlideItem) (bad : SlideItem) (hbad : extract bad = none) :
    processBatches extract (pre ++ bad :: post) [] =
      pre.filterMap (recordOfItem extract) ++ post.filterMap (recordOfItem extract) ∧
    processSlidesInBatches extract (pre ++ bad :: post) =
      processSlidesInBatches extract (pre ++ post) := by
  have h1 : ∀ l, processBatches extract l [] = l.filterMap (recordOfItem extract) :=
    fun l => processBatches_eq_filterMap extract l []
  constructor
  · rw [h1]
    simp [List.filterMap_append, List.filterMap_cons, recordOfItem, hbad]
  · unfold processSlidesInBatches
    rw [h1, h1]
    simp [List.filterMap_append, List.filterMap_cons, recordOfItem, hbad]

/-- Witness for C8: with a stub extractor failing exactly on slide 2, the
middle item of three is omitted and the others survive. -/
theorem processSlides_failure_omitted_witness :
    extractStub itemTwo = none ∧
    (processBatches extractStub ([itemOne] ++ itemTwo :: [itemThree]) [] =
      [itemOne].filterMap (recordOfItem extractStub) ++
        [itemThree].filterMap (recordOfItem extractStub) ∧
     processSlidesInBatches extractStub ([itemOne] ++ itemTwo :: [itemThree]) =
      processSlidesInBatches extractStub ([itemOne] ++ [itemThree])) :=
  ⟨rfl, processSlides_failure_omitted extractStub [itemOne] [itemThree] itemTwo rfl⟩

/-! ### Claim C9: termination of the Position Resolver's ancestor loop -/

/-- C9 counterexample: on the two-node parent cycle `0 ↔ 1` with the slide
at 2, the `while` loop of `getAbsolutePosition` never reaches the slide or
a null parent: the claim that the accumulation terminates on every
malformed or cyclic parent chain is false. -/
theorem getAbsolutePosition_cyclic_counterexample : ¬ gapTerminates cyclicChain 2 0 := by
  rintro ⟨n, hn⟩
  have key : ∀ m (s : GapState), (s.current = some 0 ∨ s.current = some 1) →
      ((gapRun cyclicChain 2 m s).current = some 0 ∨
       (gapRun cyclicChain 2 m s).current = some 1) := by
    intro m
    induction m with
    | zero => intro s hs; exact hs
    | succ k ih =>
      intro s hs
      rw [gapRun]
      apply ih
      rcases hs with h | h <;> simp [gapStep, h, cyclicChain]
  have hcur := key n (gapInit cyclicChain 0) (by simp [gapInit, cyclicChain])
  rcases hcur with h | h <;> simp [gapHalted, h] at hn

/-- After `n` iterations the accumulated position is the start state's
offset plus the offsets of the ancestors visited so far (the chain up to
but excluding the slide or a null parent). -/
theorem gapRun_sum (e : ParentChain) (slide : ℕ) : ∀ (n : ℕ) (s : GapState),
    (gapRun e slide n s).x = s.x + ((visitedAncestors e slide n s.current).map e.xOf).sum ∧
    (gapRun e slide n s).y = s.y + ((visitedAncestors e slide n s.current).map e.yOf).sum := by
  intro n
  induction n with
  | zero => intro s; simp [gapRun, visitedAncestors]
  | succ k ih =>
    intro s
    rw [gapRun]
    match hs : s.current with
    | none =>
      have hstep : gapStep e slide s = s := by simp [gapStep, hs]
      rw [hstep, visitedAncestors]
      have := ih s
      rw [hs] at this
      cases k <;> simpa [visitedAncestors] using this
    | some c =>
      by_cases hc : c = slide
      · have hstep : gapStep e slide s = s := by simp [gapStep, hs, hc]
        rw [hstep, visitedAncestors, if_pos hc]
        have := ih s
        rw [hs] at this
        have hvk : visitedAncestors e slide k (some c) = [] := by
          cases k with
          | zero => rfl
          | succ m => rw [visitedAncestors, if_pos hc]
        rw [hvk] at this
        simpa using this
      · have hstep : gapStep e slide s = ⟨s.x + e.xOf c, s.y + e.yOf c, e.parent c⟩ := by
          simp [gapStep, hs, hc]
        rw [hstep, visitedAncestors, if_neg hc]
        have := ih ⟨s.x + e.xOf c, s.y + e.yOf c, e.parent c⟩
        simp only [List.map_cons, List.sum_cons] at this ⊢
        constructor
        · rw [this.1]; ring
        · rw [this.2]; ring

/-- C9 amended: whenever the loop's guard fails within `n` iterations (the
ancestor chain reaches the slide or a null parent), `getAbsolutePosition`
terminates and its result is the node's local offset plus the sum of every
visited ancestor's local offset up to and excluding the slide; on a cyclic
chain that reaches neither (see the counterexample) the loop never halts. -/
theorem getAbsolutePosition_halt_sum (e : ParentChain) (slide node : ℕ) (n : ℕ)
    (h : gapHalted slide (gapRun e slide n (gapInit e node))) :
    gapTerminates e slide node ∧
    (gapRun e slide n (gapInit e node)).x =
      e.xOf node + ((visitedAncestors e slide n (e.parent node)).map e.xOf).sum ∧
    (gapRun e slide n (gapInit e node)).y =
      e.yOf node + ((visitedAncestors e slide n (e.parent node)).map e.yOf).sum :=
  ⟨⟨n, h⟩, (gapRun_sum e slide n (gapInit e node)).1, (gapRun_sum e slide n (gapInit e node)).2⟩

/-- Witness for C9's amended claim on the well-formed chain `0 → 1 → 2`
with the slide at 2: two iterations halt the loop. -/
theorem getAbsolutePosition_halt_sum_witness :
    gapHalted 2 (gapRun straightChain 2 2 (gapInit straightChain 0)) = true ∧
    gapTerminates straightChain 2 0 ∧
    (gapRun straightChain 2 2 (gapInit straightChain 0)).x =
      straightChain.xOf 0 +
        ((visitedAncestors straightChain 2 2 (straightChain.parent 0)).map
          straightChain.xOf).sum :=
  ⟨rfl, (getAbsolutePosition_halt_sum straightChain 2 0 2 rfl).1,
    (getAbsolutePosition_halt_sum straightChain 2 0 2 rfl).2.1⟩

/-! ### Claim C10: parallel plain and formatted outputs -/

/-- C10: for every slide and optional analysis, `extractSlideText` returns
`plainText` equal to the texts of `formattedText` position by position, and
each item's markdown is its text rendered at its level — `"# "` for title,
`"## "` for heading, `"### "` for subheading, bare text for body. -/
theorem extractSlideText_parallel_markdown (slide : SceneNode)
    (analysis : Option SlideAnalysis) :
    (extractSlideText slide analysis).plainText =
      (extractSlideText slide analysis).formattedText.map TextItem.text ∧
    (∀ it ∈ (extractSlideText slide analysis).formattedText,
      it.markdown = formatMarkdown it.text it.level) ∧
    (∀ s : String, formatMarkdown s .title = "# " ++ s ∧
      formatMarkdown s Level.heading = "## " ++ s ∧
      formatMarkdown s .subheading = "### " ++ s ∧
      formatMarkdown s .body = s) := by
  refine ⟨?_, ?_, fun s => ⟨rfl, rfl, rfl, rfl⟩⟩
  · unfold extractSlideText
    dsimp only
    rw [List.map_map]
    rfl
  · intro it hit
    unfold extractSlideText at hit
    dsimp only at hit
    obtain ⟨node, hnode, rfl⟩ := List.mem_map.1 hit
    rfl

/-! ### Claims C1 and C2: Column Segmenter output -/

theorem findColumnFrom_bounds (x : ℚ) : ∀ (l : List ℚ) (i0 j : ℕ),
    findColumnFrom x l i0 = some j → i0 ≤ j ∧ j - i0 + 2 ≤ l.length
  | [], i0, j => by simp [findColumnFrom]
  | [b], i0, j => by simp [findColumnFrom]
  | b0 :: b1 :: rest, i0, j => by
    rw [findColumnFrom]
    split_ifs with h
    · intro hj
      obtain rfl := Option.some.inj hj
      simp
    · intro hj
      have := findColumnFrom_bounds x (b1 :: rest) (i0 + 1) j hj
      constructor
      · omega
      · simp only [List.length_cons] at this ⊢
        omega

/-- A matched column index is a real column: `j + 1 < bs.length`. -/
theorem findColumn_lt_of_some {bs : List ℚ} {x : ℚ} {j : ℕ}
    (h : findColumn bs x = some j) : j + 2 ≤ bs.length := by
  have := findColumnFrom_bounds x bs 0 j h
  omega

theorem count_filter_eq {α} [DecidableEq α] (p : α → Bool) (a : α) (l : List α) :
    (l.filter p).count a = if p a then l.count a else 0 := by
  by_cases h : p a
  · simp [h, List.count_filter]
  · simp only [h, if_false]
    exact List.count_eq_zero.2 (fun ha => absurd (List.of_mem_filter ha) (by simp [h]))

theorem sum_range_single (c : ℕ) (j : ℕ) : ∀ n,
    ((List.range n).map (fun i => if j = i then c else 0)).sum = if j < n then c else 0
  | 0 => by simp
  | n + 1 => by
    rw [List.range_succ, List.map_append, List.sum_append, sum_range_single c j n]
    by_cases h : j < n
    · have : ¬ j = n := by omega
      simp [h, this, Nat.lt_succ_of_lt h]
    · by_cases h2 : j = n
      · subst h2
        simp [h, Nat.lt_succ_self]
      · have : ¬ j < n + 1 := by omega
        simp [h, h2, this]

unseal Rat.add Rat.sub Rat.mul Rat.inv in
/-- C1 counterexample: with the default boundaries `[0, 40, 100]` for slide
width 100 and no analysis, an element at absolute `x = 100` (the slide
width) matches no half-open interval, so the loop at `code.ts:177-185`
drops it: the output is empty, not a permutation of the input, and in
particular the element is not assigned to the last column. -/
theorem sortTextNodesByColumns_out_of_range_counterexample :
    sortTextNodesByColumns [⟨leafTen, 100, 0⟩] 100 none = [] ∧
    ¬ List.Perm (sortTextNodesByColumns [⟨leafTen, 100, 0⟩] 100 none)
        [⟨leafTen, 100, 0⟩] :=
  ⟨by decide, by decide⟩

/-- C1 amended: the ordered output of the Column Segmenter is a permutation
of exactly those input elements whose absolute x falls in some half-open
boundary interval (`findColumn` matches); no element is duplicated, and an
element matching no interval — absolute x below 0 or at/above the last
boundary — is dropped rather than assigned to the last column. -/
theorem sortTextNodesByColumns_perm_matched (items : List PosNode) (slideWidth : ℚ)
    (analysis : Option SlideAnalysis) :
    List.Perm (sortTextNodesByColumns items slideWidth analysis)
      (items.filter (fun it =>
        (findColumn (columnBoundaries slideWidth analysis) it.x).isSome)) := by
  rw [List.perm_iff_count]
  intro a
  unfold sortTextNodesByColumns assignColumns
  rw [List.count_flatten, List.map_map, List.map_map]
  have hcongr : List.map
      ((List.count a ∘ List.insertionSort yLE) ∘ fun i =>
        List.filter (fun it =>
          decide (findColumn (columnBoundaries slideWidth analysis) it.x = some i)) items)
      (List.range ((columnBoundaries slideWidth analysis).length - 1)) =
    List.map (fun i => if findColumn (columnBoundaries slideWidth analysis) a.x = some i
        then items.count a else 0)
      (List.range ((columnBoundaries slideWidth analysis).length - 1)) := by
    apply List.map_congr_left
    intro i _
    simp only [Function.comp]
    rw [(List.perm_insertionSort yLE _).count_eq, count_filter_eq]
    by_cases h : findColumn (columnBoundaries slideWidth analysis) a.x = some i <;> simp [h]
  rw [hcongr, count_filter_eq]
  match hx : findColumn (columnBoundaries slideWidth analysis) a.x with
  | none =>
    rw [List.sum_eq_zero]
    · simp
    · intro x hxm
      obtain ⟨i, hi, rfl⟩ := List.mem_map.1 hxm
      simp
  | some j =>
    have hj : j < (columnBoundaries slideWidth analysis).length - 1 := by
      have := findColumn_lt_of_some hx
      omega
    have hcongr2 : List.map (fun i => if (some j : Option ℕ) = some i
          then items.count a else 0)
        (List.range ((columnBoundaries slideWidth analysis).length - 1)) =
      List.map (fun i => if j = i then items.count a else 0)
        (List.range ((columnBoundaries slideWidth analysis).length - 1)) := by
      apply List.map_congr_left
      intro i _
      simp
    rw [hcongr2, sum_range_single]
    simp [hj]

theorem filter_orderedInsert {α} (r : α → α → Prop) [DecidableRel r] (q : α → Bool)
    (a : α) : ∀ (l : List α), (∀ b ∈ l, q b = true → q a = true → r a b) →
    (l.orderedInsert r a).filter q = if q a then a :: l.filter q else l.filter q
  | [], _ => by
    simp [List.orderedInsert, List.filter_cons]
  | b :: t, H => by
    rw [List.orderedInsert]
    have IH := filter_orderedInsert r q a t (fun x hx => H x (List.mem_cons_of_mem b hx))
    by_cases hr : r a b
    · rw [if_pos hr, List.filter_cons]
    · rw [if_neg hr]
      by_cases hqb : q b
      · by_cases hqa : q a
        · exact absurd (H b (List.mem_cons_self b t) hqb hqa) hr
        · simp [List.filter_cons, hqb, hqa, IH]
      · simp [List.filter_cons, hqb, IH]

/-- Stability of insertion sort on a class of mutually tied elements: the
sorted list restricted to the class keeps the original order. -/
theorem filter_insertionSort {α} (r : α → α → Prop) [DecidableRel r] (q : α → Bool)
    (H : ∀ a b, q a = true → q b = true → r a b) :
    ∀ l : List α, (List.insertionSort r l).filter q = l.filter q
  | [] => rfl
  | x :: xs => by
    rw [List.insertionSort]
    rw [filter_orderedInsert r q x (List.insertionSort r xs)
      (fun b _ hqb hqx => H x b hqx hqb)]
    by_cases hq : q x
    · rw [if_pos hq, List.filter_cons, if_pos hq, filter_insertionSort r q H xs]
    · rw [if_neg hq, List.filter_cons, if_neg hq, filter_insertionSort r q H xs]

theorem flatten_range_single {α} (xs : List α) (c : ℕ) : ∀ n,
    ((List.range n).map (fun i => if c = i then xs else [])).flatten =
      if c < n then xs else []
  | 0 => by simp
  | n + 1 => by
    rw [List.range_succ, List.map_append, List.flatten_append, flatten_range_single xs c n]
    by_cases h : c < n
    · have : ¬ c = n := by omega
      simp [h, this, Nat.lt_succ_of_lt h]
    · by_cases h2 : c = n
      · subst h2
        simp [h, Nat.lt_succ_self]
      · have : ¬ c < n + 1 := by omega
        simp [h, h2, this]

/-- Every element of a sorted column bucket was assigned that column. -/
theorem mem_sortedColumn {items : List PosNode} {bs : List ℚ} {i : ℕ} {x : PosNode}
    (hx : x ∈ List.insertionSort yLE
      (items.filter (fun it => decide (findColumn bs it.x = some i)))) :
    findColumn bs x.x = some i := by
  have := (List.mem_filter.1 ((List.mem_insertionSort yLE).1 hx)).2
  simpa using this

/-- The Segmenter output is pairwise ordered: column indices never decrease,
and within a column y never decreases. -/
theorem sortTextNodesByColumns_pairwise (items : List PosNode) (slideWidth : ℚ)
    (analysis : Option SlideAnalysis) :
    (sortTextNodesByColumns items slideWidth analysis).Pairwise
        (fun a b => ∀ ca cb,
          findColumn (columnBoundaries slideWidth analysis) a.x = some ca →
          findColumn (columnBoundaries slideWidth analysis) b.x = some cb →
          ca ≤ cb ∧ (ca = cb → a.y ≤ b.y)) := by
  unfold sortTextNodesByColumns assignColumns
  rw [List.map_map, List.pairwise_flatten]
  constructor
  · intro l hl
    obtain ⟨i, _, rfl⟩ := List.mem_map.1 hl
    simp only [Function.comp]
    have hsorted : (List.insertionSort yLE
        (items.filter (fun it =>
          decide (findColumn (columnBoundaries slideWidth analysis) it.x = some i)))).Pairwise
        yLE := List.sorted_insertionSort yLE _
    apply List.Pairwise.imp_of_mem _ hsorted
    intro a b ha hb hab ca cb hca hcb
    have hia : ca = i := by
      have := mem_sortedColumn ha
      rw [hca] at this
      exact Option.some.inj this
    have hib : cb = i := by
      have := mem_sortedColumn hb
      rw [hcb] at this
      exact Option.some.inj this
    subst hia
    subst hib
    exact ⟨le_refl _, fun _ => hab⟩
  · rw [List.pairwise_map]
    apply List.Pairwise.imp_of_mem _ (List.pairwise_lt_range _)
    intro i j hi hj hij a ha b hb ca cb hca hcb
    simp only [Function.comp] at ha hb
    have hia : ca = i := by
      have := mem_sortedColumn ha
      rw [hca] at this
      exact Option.some.inj this
    have hib : cb = j := by
      have := mem_sortedColumn hb
      rw [hcb] at this
      exact Option.some.inj this
    subst hia
    subst hib
    exact ⟨Nat.le_of_lt hij, fun h => absurd h (Nat.ne_of_lt hij)⟩

/-- C2: in the Segmenter's output, an earlier position never has a larger
column index than a later one (columns are never interleaved); two
positions in the same column are in non-decreasing y order, so an element
with smaller y precedes one with larger y; and for every column and y
value, the tie class keeps the original collection order (the sort is
stable). -/
theorem sortTextNodesByColumns_ordering (items : List PosNode) (slideWidth : ℚ)
    (analysis : Option SlideAnalysis) :
    (∀ i j : ℕ, i < j → j < (sortTextNodesByColumns items slideWidth analysis).length →
      ∀ ci cj,
      findColumn (columnBoundaries slideWidth analysis)
        ((sortTextNodesByColumns items slideWidth analysis).getD i defaultPosNode).x =
          some ci →
      findColumn (columnBoundaries slideWidth analysis)
        ((sortTextNodesByColumns items slideWidth analysis).getD j defaultPosNode).x =
          some cj →
      ci ≤ cj ∧ (ci = cj →
        ((sortTextNodesByColumns items slideWidth analysis).getD i defaultPosNode).y ≤
        ((sortTextNodesByColumns items slideWidth analysis).getD j defaultPosNode).y)) ∧
    (∀ (c : ℕ) (v : ℚ),
      (sortTextNodesByColumns items slideWidth analysis).filter
        (fun it => decide (findColumn (columnBoundaries slideWidth analysis) it.x = some c ∧
          it.y = v)) =
      items.filter
        (fun it => decide (findColumn (columnBoundaries slideWidth analysis) it.x = some c ∧
          it.y = v))) := by
  constructor
  · intro i j hij hjl ci cj hci hcj
    have hil : i < (sortTextNodesByColumns items slideWidth analysis).length :=
      lt_trans hij hjl
    have hpw := sortTextNodesByColumns_pairwise items slideWidth analysis
    rw [List.pairwise_iff_get] at hpw
    have hgi : (sortTextNodesByColumns items slideWidth analysis).getD i defaultPosNode =
        (sortTextNodesByColumns items slideWidth analysis).get ⟨i, hil⟩ := by
      rw [List.getD_eq_getElem?_getD, List.getElem?_eq_getElem hil]
      rfl
    have hgj : (sortTextNodesByColumns items slideWidth analysis).getD j defaultPosNode =
        (sortTextNodesByColumns items slideWidth analysis).get ⟨j, hjl⟩ := by
      rw [List.getD_eq_getElem?_getD, List.getElem?_eq_getElem hjl]
      rfl
    rw [hgi] at hci ⊢
    rw [hgj] at hcj ⊢
    exact hpw ⟨i, hil⟩ ⟨j, hjl⟩ hij ci cj hci hcj
  · intro c v
    unfold sortTextNodesByColumns assignColumns
    rw [List.map_map, List.filter_flatten, List.map_map]
    have hterm : ∀ i ∈ List.range ((columnBoundaries slideWidth analysis).length - 1),
        (List.filter (fun it =>
            decide (findColumn (columnBoundaries slideWidth analysis) it.x = some c ∧
              it.y = v)) ∘ List.insertionSort yLE ∘ (fun i =>
          List.filter (fun it =>
            decide (findColumn (columnBoundaries slideWidth analysis) it.x = some i)) items)) i =
        if c = i then
          items.filter (fun it =>
            decide (findColumn (columnBoundaries slideWidth analysis) it.x = some c ∧
              it.y = v))
        else [] := by
      intro i _
      simp only [Function.comp]
      rw [filter_insertionSort yLE _ (by
        intro a b hqa hqb
        have ha := (of_decide_eq_true hqa).2
        have hb := (of_decide_eq_true hqb).2
        unfold yLE
        rw [ha, hb])]
      rw [List.filter_filter]
      by_cases hci : c = i
      · subst hci
        rw [if_pos rfl]
        apply List.filter_congr
        intro x _
        by_cases hq : findColumn (columnBoundaries slideWidth analysis) x.x = some c ∧ x.y = v
        · simp [hq, hq.1]
        · simp [hq]
      · rw [if_neg hci, List.filter_eq_nil_iff]
        intro a _
        simp only [Bool.and_eq_true, decide_eq_true_eq]
        rintro ⟨⟨hcol, _⟩, hcoli⟩
        rw [hcol] at hcoli
        exact hci (Option.some.inj hcoli)
    rw [List.map_congr_left hterm, flatten_range_single]
    by_cases hc : c < (columnBoundaries slideWidth analysis).length - 1
    · rw [if_pos hc]
    · rw [if_neg hc]
      symm
      rw [List.filter_eq_nil_iff]
      intro a _
      simp only [decide_eq_true_eq]
      rintro ⟨hcol, _⟩
      have := findColumn_lt_of_some hcol
      omega

unseal Rat.add Rat.sub Rat.mul Rat.inv in
/-- Witness for C2 at two concrete nodes: `nodeR` (right band, y = 10)
collected before `nodeL` (left band, y = 50); the output places the left
column first and keeps the y = 50 tie class in collection order. -/
theorem sortTextNodesByColumns_ordering_witness :
    ((0:ℕ) < 1 ∧ 1 < (sortTextNodesByColumns [nodeR, nodeL] 100 none).length) ∧
    ((0:ℕ) ≤ 1 ∧ ((0:ℕ) = 1 →
      ((sortTextNodesByColumns [nodeR, nodeL] 100 none).getD 0 defaultPosNode).y ≤
      ((sortTextNodesByColumns [nodeR, nodeL] 100 none).getD 1 defaultPosNode).y)) ∧
    ((sortTextNodesByColumns [nodeR, nodeL] 100 none).filter
        (fun it => decide (findColumn (columnBoundaries 100 none) it.x = some 0 ∧
          it.y = 50)) =
      [nodeR, nodeL].filter
        (fun it => decide (findColumn (columnBoundaries 100 none) it.x = some 0 ∧
          it.y = 50))) :=
  ⟨⟨by decide, by decide⟩,
   (sortTextNodesByColumns_ordering [nodeR, nodeL] 100 none).1 0 1 (by decide) (by decide)
     0 1 (by decide) (by decide),
   (sortTextNodesByColumns_ordering [nodeR, nodeL] 100 none).2 0 50⟩
